import Mathlib

/-!
Verification of the CSV-driven variant reconciliation workflow
(`scripts/export-variants.js` and the variant import script).

JavaScript strings are embedded as `List Char`; JavaScript objects used as
string-keyed records are embedded as ordered association lists.  The network
is embedded as an explicit environment (`Env`): each GraphQL request the
scripts would issue is recorded as a `Call` value, so theorems can speak
about which requests a run performs.
-/

deriving instance DecidableEq for Except

namespace Reconcile

/-- JavaScript strings are modelled as lists of characters. -/
abbrev Str := List Char

/-- A parsed CSV row: the JS object `{header: value, ...}` as an ordered
association list from column name to cell value. -/
abbrev Row := List (Str × Str)

/-- `pat.isPrefixOf l` for JS `String.prototype.startsWith`. -/
def hasPrefixL : Str → Str → Bool
  | [], _ => true
  | _ :: _, [] => false
  | p :: ps, c :: cs => p = c && hasPrefixL ps cs

/-- JS `String.prototype.replace` with a plain-string pattern: replaces the
first occurrence of `pat` by `repl`. -/
def replaceFirst (pat repl : Str) : Str → Str
  | [] => if pat = [] then repl else []
  | c :: rest =>
    if hasPrefixL pat (c :: rest) then repl ++ (c :: rest).drop pat.length
    else c :: replaceFirst pat repl rest

/-- JS `String.prototype.split` with a single-character separator. -/
def splitOnChar (sep : Char) : Str → List Str
  | [] => [[]]
  | c :: rest =>
    if c = sep then [] :: splitOnChar sep rest
    else
      match splitOnChar sep rest with
      | [] => [[c]]
      | s :: ss => (c :: s) :: ss

/-- JS `Array.prototype.join` with a single-character separator. -/
def joinSep (sep : Char) : List Str → Str
  | [] => []
  | [x] => x
  | x :: y :: rest => x ++ sep :: joinSep sep (y :: rest)

/-- JS `String.prototype.trim`. -/
def trimChars (l : Str) : Str :=
  ((l.dropWhile Char.isWhitespace).reverse.dropWhile Char.isWhitespace).reverse

/-- JS property read `row[key]` on a string-keyed record, with the
`|| ""` default the scripts apply (absent key yields the empty string). -/
def lookupRow : Row → Str → Str
  | [], _ => []
  | (k, v) :: rest, key => if k = key then v else lookupRow rest key

/-! ## Tabular codec: write path (`arrayToCSV` in export-variants.js) -/

/-- JS `value.replace(/"/g, '""')`: double every double-quote. -/
def doubleQuotes (v : Str) : Str :=
  v.foldr (fun c acc => if c = '"' then '"' :: '"' :: acc else c :: acc) []

/-- One emitted CSV field, from the body of `arrayToCSV`: a value is wrapped
in double quotes with internal quotes doubled exactly when it contains a
comma, a double quote, or a newline. -/
def escapeCSVField (value : Str) : Str :=
  if value.contains ',' || value.contains '"' || value.contains '\n' then
    '"' :: (doubleQuotes value ++ ['"'])
  else value

/-- `arrayToCSV` from export-variants.js: header line of the first row's
keys, then one line per row, all joined with a single newline. -/
def arrayToCSV (data : List Row) : Str :=
  match data with
  | [] => []
  | firstRow :: _ =>
    let headers := firstRow.map Prod.fst
    joinSep '\n'
      (joinSep ',' headers ::
        data.map (fun row =>
          joinSep ',' (headers.map (fun h => escapeCSVField (lookupRow row h)))))

/-- Modelled from the spec (Tabular Codec write-path contract): given an
ordered column list and a sequence of rows of values, the first line is the
comma-joined column names; each subsequent line is the comma-joined values,
a value being double-quote wrapped with internal double quotes doubled if
and only if it contains a comma, a double quote, or a newline; no trailing
delimiter; lines joined by a single newline.  Used only to compare the
code's `arrayToCSV` against the spec's wording. -/
def csvEncodeSpec (columns : List Str) (rows : List (List Str)) : Str :=
  let needsQuoting : Str → Bool := fun v =>
    v.contains ',' || v.contains '"' || v.contains '\n'
  let quoteValue : Str → Str := fun v =>
    '"' :: ((v.foldr (fun c acc => if c = '"' then '"' :: '"' :: acc else c :: acc) []) ++ ['"'])
  let encodeValue : Str → Str := fun v => if needsQuoting v then quoteValue v else v
  joinSep '\n'
    (joinSep ',' columns :: rows.map (fun r => joinSep ',' (r.map encodeValue)))

/-! ## Tabular codec: read path (`parseCSV` / `parseCSVLine` in the import script) -/

/-- The character loop of `parseCSVLine`: the first argument is the
`inQuotes` state, the second the field accumulated so far.  A `"` inside
quotes followed by another `"` is an escaped literal quote; otherwise `"`
toggles the quote state; a `,` outside quotes ends the field; every pushed
field is trimmed. -/
def parseCSVLineAux : Bool → Str → Str → List Str
  | _, current, [] => [trimChars current]
  | true, current, '"' :: '"' :: rest => parseCSVLineAux true (current ++ ['"']) rest
  | inQuotes, current, '"' :: rest => parseCSVLineAux (!inQuotes) current rest
  | false, current, ',' :: rest => trimChars current :: parseCSVLineAux false [] rest
  | inQuotes, current, c :: rest => parseCSVLineAux inQuotes (current ++ [c]) rest

/-- `parseCSVLine` from the import script. -/
def parseCSVLine (line : Str) : List Str :=
  parseCSVLineAux false [] line

/-- The data-line loop of `parseCSV`: a line whose parsed field count
differs from the header count is dropped (with a console warning); an
accepted line becomes the record mapping each header to its field. -/
def parseRows (headers : List Str) : List Str → List Row
  | [] => []
  | line :: rest =>
    if (parseCSVLine line).length = headers.length then
      headers.zip (parseCSVLine line) :: parseRows headers rest
    else parseRows headers rest

/-- `parseCSV` from the import script: split on raw newlines, drop
whitespace-only lines, require a header line plus at least one data line,
read headers by raw comma split with quotes stripped and trimming, then
parse the data lines. -/
def parseCSV (content : Str) : Except Str (List Row) :=
  match (splitOnChar '\n' content).filter (fun l => !(trimChars l).isEmpty) with
  | header :: dataLine :: dataRest =>
    let headers := (splitOnChar ',' header).map (fun h => trimChars (h.filter (fun c => c != '"')))
    Except.ok (parseRows headers (dataLine :: dataRest))
  | _ => Except.error ("CSV file must have at least a header row and one data row".data)

/-! ## Metafield flattening (exporter) and extraction (importer) -/

/-- One variant metafield as carried by both scripts. -/
structure Metafield where
  ns : Str
  key : Str
  value : Str
  type : Str
deriving DecidableEq

/-- `flattenMetafields` from export-variants.js: each metafield becomes the
column `metafield_{namespace}_{key}` holding its value. -/
def flattenMetafields (metafields : List Metafield) : List (Str × Str) :=
  metafields.map (fun m => (("metafield_".data ++ m.ns) ++ ('_' :: m.key), m.value))

/-- `extractMetafields` from the import script: every populated column whose
name starts with `metafield_` and whose remainder splits on `_` into at
least two parts yields a metafield; the first part is the namespace and the
rest rejoined with `_` is the key; the type defaults to
`single_line_text_field`. -/
def extractMetafields (row : Row) : List Metafield :=
  row.foldr
    (fun kv acc =>
      if hasPrefixL ("metafield_".data) kv.1 ∧ kv.2 ≠ [] then
        match splitOnChar '_' (replaceFirst ("metafield_".data) [] kv.1) with
        | p0 :: p1 :: ps =>
          { ns := p0, key := joinSep '_' (p1 :: ps), value := kv.2,
            type := "single_line_text_field".data } :: acc
        | _ => acc
      else acc)
    []

/-! ## Batch writer (import script) -/

/-- Outcome of the `productVariantsBulkUpdate` request as the script
observes it: the promise resolves cleanly, resolves with `userErrors`
(already stringified), or rejects (transport failure or top-level GraphQL
errors, carrying the rejection message). -/
inductive MutationOutcome where
  | ok : MutationOutcome
  | userErrors (errs : Str) : MutationOutcome
  | reject (msg : Str) : MutationOutcome
deriving DecidableEq

/-- Which request a recorded network call is. -/
inductive CallKind where
  | getProduct : CallKind
  | mutation : CallKind
deriving DecidableEq

/-- One network request issued by the import script. -/
structure Call where
  kind : CallKind
  variantId : Str
  payload : List Metafield
deriving DecidableEq

/-- The external API, as the import script can observe it: the product
lookup for a variant (`none` covers both a missing product and a failed
lookup request, which `getProductIdFromVariantId` catches and turns into
`null`), and the bulk-update mutation outcome. -/
structure Env where
  productIdOf : Str → Option Str
  mutate : Str → List Metafield → MutationOutcome

/-- One entry of the per-metafield result list built by
`updateVariantMetafields`. -/
structure MetafieldResult where
  success : Bool
  metafield : Metafield
  error : Option Str := none
  action : Option Str := none
deriving DecidableEq

/-- One entry of `results.details` in `processBatch`. -/
structure Detail where
  variantId : Str
  variantTitle : Str
  metafieldResults : List MetafieldResult
deriving DecidableEq

/-- The aggregate built by `processBatch` and accumulated by
`importVariants`. -/
structure Results where
  success : Nat
  failed : Nat
  skipped : Nat
  details : List Detail
deriving DecidableEq

/-- The metafield list as placed in the mutation variables: a missing type
defaults to `single_line_text_field`. -/
def sentMetafields (metafields : List Metafield) : List Metafield :=
  metafields.map (fun m =>
    { m with type := if m.type = [] then "single_line_text_field".data else m.type })

/-- The error text `updateVariantMetafields` captures for a failing variant:
a failed product lookup raises `Could not find product for variant ...`;
`userErrors` raise `GraphQL errors: ...`; a rejected request carries its own
message. -/
def capturedError (env : Env) (variantId : Str) (sent : List Metafield) : Str :=
  match env.productIdOf variantId with
  | none => "Could not find product for variant ".data ++ variantId
  | some _ =>
    match env.mutate variantId sent with
    | MutationOutcome.ok => []
    | MutationOutcome.userErrors errs => "GraphQL errors: ".data ++ errs
    | MutationOutcome.reject msg => msg

/-- `updateVariantMetafields` from the import script, with the network calls
it issues made explicit.  An empty metafield list returns immediately; dry
run synthesizes successes without any request; otherwise the product lookup
and then the mutation run, and any failure is caught and turned into
per-metafield failure results carrying the error message. -/
def updateVariantMetafields (env : Env) (dryRun : Bool) (variantId : Str)
    (metafields : List Metafield) : List MetafieldResult × List Call :=
  if metafields.length = 0 then ([], [])
  else if dryRun then
    (metafields.map (fun m =>
      { success := true, metafield := m, action := some ("dry-run".data) }), [])
  else
    let lookupCall : Call := { kind := CallKind.getProduct, variantId := variantId, payload := [] }
    match env.productIdOf variantId with
    | none =>
      (metafields.map (fun m =>
        { success := false
          metafield := m
          error := some ("Could not find product for variant ".data ++ variantId) }),
       [lookupCall])
    | some _ =>
      let sent := sentMetafields metafields
      let mutCall : Call := { kind := CallKind.mutation, variantId := variantId, payload := sent }
      match env.mutate variantId sent with
      | MutationOutcome.ok =>
        (metafields.map (fun m => { success := true, metafield := m }), [lookupCall, mutCall])
      | MutationOutcome.userErrors errs =>
        (metafields.map (fun m =>
          { success := false
            metafield := m
            error := some ("GraphQL errors: ".data ++ errs) }), [lookupCall, mutCall])
      | MutationOutcome.reject msg =>
        (metafields.map (fun m =>
          { success := false, metafield := m, error := some msg }), [lookupCall, mutCall])

/-- `processBatch` from the import script, the loop accumulator made
explicit: a variant with no extracted metafields is counted skipped and
contributes no detail entry and no request; otherwise
`updateVariantMetafields` runs and the variant is counted success or failed
according to whether any per-metafield result failed.  Nothing inside the
loop body's `try` can throw in this model (`updateVariantMetafields`
catches every failure itself), so the `catch` branch is unreachable and is
not modelled. -/
def processBatch (env : Env) (dryRun : Bool) : List Row → Results × List Call
  | [] => ({ success := 0, failed := 0, skipped := 0, details := [] }, [])
  | variant :: rest =>
    let variantId := lookupRow variant ("variant_id".data)
    let metafields := extractMetafields variant
    let restRC := processBatch env dryRun rest
    if metafields.length = 0 then
      ({ restRC.1 with skipped := restRC.1.skipped + 1 }, restRC.2)
    else
      let mr := updateVariantMetafields env dryRun variantId metafields
      let failCount := (mr.1.filter (fun r => !r.success)).length
      let detail : Detail :=
        { variantId := variantId
          variantTitle := lookupRow variant ("variant_title".data)
          metafieldResults := mr.1 }
      if failCount = 0 then
        ({ restRC.1 with
            success := restRC.1.success + 1
            details := detail :: restRC.1.details }, mr.2 ++ restRC.2)
      else
        ({ restRC.1 with
            failed := restRC.1.failed + 1
            details := detail :: restRC.1.details }, mr.2 ++ restRC.2)

/-- How `importVariants` accumulates one batch's aggregate into the running
totals: counts are summed, detail lists and call lists concatenated in
order. -/
def mergeRC (a b : Results × List Call) : Results × List Call :=
  ({ success := a.1.success + b.1.success
     failed := a.1.failed + b.1.failed
     skipped := a.1.skipped + b.1.skipped
     details := a.1.details ++ b.1.details },
   a.2 ++ b.2)

/-- The batching loop of `importVariants`: consecutive slices of
`batchSize` rows are processed by `processBatch` and the per-batch
aggregates are accumulated with `mergeRC`.  The inter-batch sleep is timing
only and is not modelled.  With `batchSize = 0` the JS loop would never
advance; the model returns the empty aggregate there, and every theorem
about the loop assumes a positive batch size. -/
def importLoop (env : Env) (dryRun : Bool) (batchSize : Nat) (rows : List Row) :
    Results × List Call :=
  if _h : rows.isEmpty then ({ success := 0, failed := 0, skipped := 0, details := [] }, [])
  else if _h2 : batchSize = 0 then ({ success := 0, failed := 0, skipped := 0, details := [] }, [])
  else
    mergeRC (processBatch env dryRun (rows.take batchSize))
      (importLoop env dryRun batchSize (rows.drop batchSize))
termination_by rows.length
decreasing_by
  simp only [List.length_drop]
  cases rows with
  | nil => simp at _h
  | cons a l => simp only [List.length_cons]; omega

/-- A test environment for concrete runs: every product lookup succeeds and
every mutation succeeds. -/
def envAllOk : Env :=
  { productIdOf := fun _ => some ("gid-product-1".data)
    mutate := fun _ _ => MutationOutcome.ok }

/-- A test environment for concrete runs: every product lookup succeeds;
the mutation for variant id `v3` is rejected at the transport layer and
every other mutation succeeds. -/
def envRejectV3 : Env :=
  { productIdOf := fun _ => some ("gid-product-1".data)
    mutate := fun vid _ =>
      if vid = "v3".data then MutationOutcome.reject ("network error".data)
      else MutationOutcome.ok }

/-- A concrete CSV row carrying a variant id, a title and one populated
metafield column, for concrete runs. -/
def testRow (vid : String) : Row :=
  [("variant_id".data, vid.data),
   ("variant_title".data, "Title ".data ++ vid.data),
   ("metafield_custom_popular".data, "true".data)]

/-! ## Helper lemmas about the string primitives -/

theorem hasPrefixL_iff (p l : Str) : hasPrefixL p l = true ↔ ∃ t, l = p ++ t := by
  induction p generalizing l with
  | nil => simp [hasPrefixL]
  | cons a p ih =>
    cases l with
    | nil => simp [hasPrefixL]
    | cons c cs =>
      simp only [hasPrefixL, Bool.and_eq_true, decide_eq_true_eq, ih, List.cons_append,
        List.cons.injEq]
      constructor
      · rintro ⟨rfl, t, rfl⟩; exact ⟨t, rfl, rfl⟩
      · rintro ⟨t, rfl, rfl⟩; exact ⟨rfl, t, rfl⟩

theorem hasPrefixL_append (p t : Str) : hasPrefixL p (p ++ t) = true :=
  (hasPrefixL_iff p (p ++ t)).mpr ⟨t, rfl⟩

theorem replaceFirst_append (pat repl t : Str) :
    replaceFirst pat repl (pat ++ t) = repl ++ t := by
  cases hpt : pat ++ t with
  | nil =>
    rcases List.append_eq_nil.mp hpt with ⟨rfl, rfl⟩
    simp [replaceFirst]
  | cons c rest =>
    rw [replaceFirst]
    rw [← hpt, hasPrefixL_append]
    simp [List.drop_left]

theorem splitOnChar_ne_nil (sep : Char) (l : Str) : splitOnChar sep l ≠ [] := by
  cases l with
  | nil => simp [splitOnChar]
  | cons c rest =>
    rw [splitOnChar]
    split
    · simp
    · split <;> simp

theorem joinSep_cons_cons (sep : Char) (x y : Str) (rest : List Str) :
    joinSep sep (x :: y :: rest) = x ++ sep :: joinSep sep (y :: rest) := rfl

theorem joinSep_splitOnChar (sep : Char) (l : Str) :
    joinSep sep (splitOnChar sep l) = l := by
  induction l with
  | nil => simp [splitOnChar, joinSep]
  | cons c rest ih =>
    rw [splitOnChar]
    split
    · rename_i hc
      subst hc
      rcases hs : splitOnChar c rest with _ | ⟨s, ss⟩
      · exact absurd hs (splitOnChar_ne_nil c rest)
      · rw [hs] at ih
        rw [joinSep_cons_cons, ← ih]
        simp
    · rcases hs : splitOnChar sep rest with _ | ⟨s, ss⟩
      · exact absurd hs (splitOnChar_ne_nil sep rest)
      · rw [hs] at ih
        cases ss with
        | nil => simpa [joinSep] using congrArg (fun z => c :: z) ih
        | cons s2 ss2 =>
          rw [joinSep_cons_cons] at ih ⊢
          simpa using congrArg (fun z => c :: z) ih

theorem splitOnChar_sepFree (sep : Char) (l : Str) (h : sep ∉ l) :
    splitOnChar sep l = [l] := by
  induction l with
  | nil => rfl
  | cons c rest ih =>
    rw [splitOnChar]
    have hc : ¬(c = sep) := fun hc => h (hc ▸ List.mem_cons_self c rest)
    rw [if_neg hc, ih (fun hm => h (List.mem_cons_of_mem c hm))]

theorem splitOnChar_append_sep (sep : Char) (a b : Str) (ha : sep ∉ a) :
    splitOnChar sep (a ++ sep :: b) = a :: splitOnChar sep b := by
  induction a with
  | nil => simp [splitOnChar]
  | cons c a ih =>
    have hc : ¬(c = sep) := fun hc => ha (hc ▸ List.mem_cons_self c a)
    have ha' : sep ∉ a := fun hm => ha (List.mem_cons_of_mem c hm)
    rw [List.cons_append, splitOnChar, if_neg hc, ih ha']

theorem splitOnChar_joinSep (sep : Char) (xss : List Str) (hne : xss ≠ [])
    (hfree : ∀ xs ∈ xss, sep ∉ xs) :
    splitOnChar sep (joinSep sep xss) = xss := by
  induction xss with
  | nil => exact absurd rfl hne
  | cons x xss ih =>
    cases xss with
    | nil => exact splitOnChar_sepFree sep x (hfree x (List.mem_cons_self x []))
    | cons y yss =>
      rw [joinSep_cons_cons, splitOnChar_append_sep sep x _ (hfree x (by simp)),
        ih (by simp) (fun xs hm => hfree xs (List.mem_cons_of_mem x hm))]

theorem mem_joinSep (sep : Char) (xss : List Str) (c : Char) (h : c ∈ joinSep sep xss) :
    c = sep ∨ ∃ xs ∈ xss, c ∈ xs := by
  induction xss with
  | nil => simp [joinSep] at h
  | cons x xss ih =>
    cases xss with
    | nil => exact Or.inr ⟨x, by simp, by simpa [joinSep] using h⟩
    | cons y yss =>
      rw [joinSep_cons_cons] at h
      rcases List.mem_append.mp h with hx | hrest
      · exact Or.inr ⟨x, by simp, hx⟩
      · rcases List.mem_cons.mp hrest with rfl | htail
        · exact Or.inl rfl
        · rcases ih htail with hsep | ⟨xs, hxs, hc⟩
          · exact Or.inl hsep
          · exact Or.inr ⟨xs, List.mem_cons_of_mem x hxs, hc⟩

theorem sep_mem_joinSep (sep : Char) (xss : List Str) (h : 2 ≤ xss.length) :
    sep ∈ joinSep sep xss := by
  match xss, h with
  | x :: y :: rest, _ =>
    rw [joinSep_cons_cons]
    exact List.mem_append.mpr (Or.inr (List.mem_cons_self sep _))

theorem mem_dropWhile_of_mem {p : Char → Bool} {c : Char} {l : Str}
    (hp : p c = false) (h : c ∈ l) : c ∈ l.dropWhile p := by
  induction l with
  | nil => simp at h
  | cons a l ih =>
    rw [List.dropWhile_cons]
    split
    · rename_i hpa
      rcases List.mem_cons.mp h with rfl | hm
      · rw [hp] at hpa; simp at hpa
      · exact ih hm
    · exact h

theorem mem_trimChars {c : Char} {l : Str} (hc : c.isWhitespace = false) (h : c ∈ l) :
    c ∈ trimChars l := by
  unfold trimChars
  rw [List.mem_reverse]
  exact mem_dropWhile_of_mem hc (List.mem_reverse.mpr (mem_dropWhile_of_mem hc h))

theorem trimChars_ne_nil_of_comma {l : Str} (h : ',' ∈ l) : trimChars l ≠ [] := by
  have : ',' ∈ trimChars l := mem_trimChars (by decide) h
  exact fun hnil => by simp [hnil] at this

theorem mem_doubleQuotes (c : Char) (v : Str) : c ∈ doubleQuotes v ↔ c ∈ v := by
  induction v with
  | nil => simp [doubleQuotes]
  | cons a v ih =>
    simp only [doubleQuotes, List.foldr_cons] at *
    split
    · rename_i ha
      subst ha
      simp only [List.mem_cons, ih]
      tauto
    · simp [ih]

/-! ## Stepping lemmas for the field parser -/

theorem doubleQuotes_cons (a : Char) (v : Str) :
    doubleQuotes (a :: v) =
      if a = '"' then '"' :: '"' :: doubleQuotes v else a :: doubleQuotes v := rfl

theorem parseCSVLineAux_nil (q : Bool) (current : Str) :
    parseCSVLineAux q current [] = [trimChars current] :=
  parseCSVLineAux.eq_1 q current

theorem parseCSVLineAux_plain (q : Bool) (current : Str) (c : Char) (rest : Str)
    (hq : c ≠ '"') (hc : ¬(c = ',' ∧ q = false)) :
    parseCSVLineAux q current (c :: rest) = parseCSVLineAux q (current ++ [c]) rest :=
  parseCSVLineAux.eq_5 q current c rest (fun he => hq he)
    (fun _ _ he _ => hq he) (fun hqf hcm => hc ⟨hcm, hqf⟩)

theorem parseCSVLineAux_comma (current : Str) (rest : Str) :
    parseCSVLineAux false current (',' :: rest) =
      trimChars current :: parseCSVLineAux false [] rest :=
  parseCSVLineAux.eq_4 current rest

theorem parseCSVLineAux_escape (current : Str) (rest : Str) :
    parseCSVLineAux true current ('"' :: '"' :: rest) =
      parseCSVLineAux true (current ++ ['"']) rest :=
  parseCSVLineAux.eq_2 current rest

theorem parseCSVLineAux_toggle_on (current : Str) (rest : Str) :
    parseCSVLineAux false current ('"' :: rest) = parseCSVLineAux true current rest := by
  have h := parseCSVLineAux.eq_3 false current rest
    (fun _ hfalse _ => by simp at hfalse)
  simpa using h

theorem parseCSVLineAux_toggle_off (current : Str) (rest : Str)
    (h : rest.head? ≠ some '"') :
    parseCSVLineAux true current ('"' :: rest) = parseCSVLineAux false current rest := by
  have h2 := parseCSVLineAux.eq_3 true current rest
    (fun rest1 _ hr => h (by rw [hr]; rfl))
  simpa using h2

theorem parseCSVLineAux_plain_run (v : Str) (hv : ∀ c ∈ v, c ≠ '"' ∧ c ≠ ',') :
    ∀ current s, parseCSVLineAux false current (v ++ s) =
      parseCSVLineAux false (current ++ v) s := by
  induction v with
  | nil => intro current s; simp
  | cons a v ih =>
    intro current s
    have ha := hv a (List.mem_cons_self a v)
    rw [List.cons_append,
      parseCSVLineAux_plain false current a (v ++ s) ha.1 (fun h => ha.2 h.1),
      ih (fun c hc => hv c (List.mem_cons_of_mem a hc))]
    simp

theorem parseCSVLineAux_quoted_run (v : Str) :
    ∀ current s, parseCSVLineAux true current (doubleQuotes v ++ s) =
      parseCSVLineAux true (current ++ v) s := by
  induction v with
  | nil => intro current s; simp [doubleQuotes]
  | cons a v ih =>
    intro current s
    rw [doubleQuotes_cons]
    split
    · rename_i ha
      subst ha
      rw [List.cons_append, List.cons_append, parseCSVLineAux_escape, ih]
      simp
    · rename_i ha
      by_cases hcomma : a = ','
      · subst hcomma
        rw [List.cons_append,
          parseCSVLineAux_plain true current ',' (doubleQuotes v ++ s) (by decide)
            (by simp), ih]
        simp
      · rw [List.cons_append,
          parseCSVLineAux_plain true current a (doubleQuotes v ++ s) ha
            (fun h => hcomma h.1), ih]
        simp

theorem contains3_iff (v : Str) :
    (v.contains ',' || v.contains '"' || v.contains '\n') = true ↔
      (',' ∈ v ∨ '"' ∈ v ∨ '\n' ∈ v) := by
  simp [List.contains, List.elem_iff, or_assoc]

theorem quote_comma_free_of_not_contains3 {v : Str}
    (hq : ¬(v.contains ',' || v.contains '"' || v.contains '\n') = true) :
    ∀ c ∈ v, c ≠ '"' ∧ c ≠ ',' := by
  intro c hc
  constructor
  · rintro rfl
    exact hq ((contains3_iff v).mpr (Or.inr (Or.inl hc)))
  · rintro rfl
    exact hq ((contains3_iff v).mpr (Or.inl hc))

theorem parse_field_comma (v : Str) (hv : trimChars v = v) (s : Str) :
    parseCSVLineAux false [] (escapeCSVField v ++ ',' :: s) =
      v :: parseCSVLineAux false [] s := by
  unfold escapeCSVField
  split
  · have h1 : (('"' :: (doubleQuotes v ++ ['"'])) : Str) ++ ',' :: s
        = '"' :: (doubleQuotes v ++ ('"' :: ',' :: s)) := by simp
    rw [h1, parseCSVLineAux_toggle_on, parseCSVLineAux_quoted_run, List.nil_append,
      parseCSVLineAux_toggle_off v (',' :: s) (by simp), parseCSVLineAux_comma, hv]
  · rename_i hq
    rw [parseCSVLineAux_plain_run v (quote_comma_free_of_not_contains3 hq),
      List.nil_append, parseCSVLineAux_comma, hv]

theorem parse_field_last (v : Str) (hv : trimChars v = v) :
    parseCSVLineAux false [] (escapeCSVField v) = [v] := by
  unfold escapeCSVField
  split
  · rw [show (('"' :: (doubleQuotes v ++ ['"'])) : Str) = '"' :: (doubleQuotes v ++ ['"'])
      from rfl, parseCSVLineAux_toggle_on, parseCSVLineAux_quoted_run, List.nil_append,
      parseCSVLineAux_toggle_off v [] (by simp), parseCSVLineAux_nil, hv]
  · rename_i hq
    have h1 := parseCSVLineAux_plain_run v (quote_comma_free_of_not_contains3 hq) [] []
    rw [List.append_nil] at h1
    rw [h1, List.nil_append, parseCSVLineAux_nil, hv]

theorem parse_line_of_fields (values : List Str) (hne : values ≠ [])
    (hv : ∀ v ∈ values, trimChars v = v) :
    parseCSVLine (joinSep ',' (values.map escapeCSVField)) = values := by
  induction values with
  | nil => exact absurd rfl hne
  | cons v vs ih =>
    cases vs with
    | nil =>
      simpa [parseCSVLine, joinSep] using
        parse_field_last v (hv v (List.mem_cons_self v []))
    | cons v2 vs2 =>
      rw [List.map_cons, List.map_cons, joinSep_cons_cons, parseCSVLine,
        parse_field_comma v (hv v (List.mem_cons_self v _)) _]
      rw [← List.map_cons, ← parseCSVLine,
        ih (by simp) (fun w hw => hv w (List.mem_cons_of_mem v hw))]

theorem lookupRow_cases (row : Row) (h : Str) :
    lookupRow row h = [] ∨ (h, lookupRow row h) ∈ row := by
  induction row with
  | nil => exact Or.inl rfl
  | cons kv rest ih =>
    rcases kv with ⟨k, v⟩
    rw [lookupRow]
    split
    · rename_i hk
      subst hk
      exact Or.inr (List.mem_cons_self _ _)
    · rcases ih with h1 | h2
      · exact Or.inl h1
      · exact Or.inr (List.mem_cons_of_mem _ h2)

/-! ## Round-trip assembly lemmas -/

theorem map_eq_self_of {α : Type} (l : List α) (f : α → α) (h : ∀ a ∈ l, f a = a) :
    l.map f = l := by
  induction l with
  | nil => rfl
  | cons a l ih =>
    rw [List.map_cons, h a (List.mem_cons_self a l),
      ih (fun b hb => h b (List.mem_cons_of_mem a hb))]

theorem filter_quotes_eq_self {h : Str} (hq : '"' ∉ h) :
    h.filter (fun c => c != '"') = h :=
  List.filter_eq_self.mpr (fun a ha => bne_iff_ne.mpr (fun he => hq (he ▸ ha)))

theorem row_value_trim (row : Row) (hvals : ∀ kv ∈ row, trimChars kv.2 = kv.2) (h : Str) :
    trimChars (lookupRow row h) = lookupRow row h := by
  rcases lookupRow_cases row h with h1 | h2
  · rw [h1]; rfl
  · exact hvals _ h2

theorem row_value_nl (row : Row) (hvals : ∀ kv ∈ row, '\n' ∉ kv.2) (h : Str) :
    '\n' ∉ lookupRow row h := by
  rcases lookupRow_cases row h with h1 | h2
  · rw [h1]; simp
  · exact hvals _ h2

theorem nl_not_mem_escape {v : Str} (hv : '\n' ∉ v) : '\n' ∉ escapeCSVField v := by
  unfold escapeCSVField
  split
  · intro hm
    rcases List.mem_cons.mp hm with he | hm2
    · exact absurd he (by decide)
    · rcases List.mem_append.mp hm2 with hd | he2
      · exact hv ((mem_doubleQuotes _ v).mp hd)
      · rw [List.mem_singleton] at he2
        exact absurd he2 (by decide)
  · exact hv

theorem nl_not_mem_row_line (headers : List Str) (row : Row)
    (hvals : ∀ kv ∈ row, '\n' ∉ kv.2) :
    '\n' ∉ joinSep ',' (headers.map (fun h => escapeCSVField (lookupRow row h))) := by
  intro hm
  rcases mem_joinSep ',' _ '\n' hm with he | ⟨xs, hxs, hc⟩
  · exact absurd he (by decide)
  · rcases List.mem_map.mp hxs with ⟨h, _, rfl⟩
    exact nl_not_mem_escape (row_value_nl row hvals h) hc

theorem nl_not_mem_header_line (headers : List Str) (hh : ∀ h ∈ headers, '\n' ∉ h) :
    '\n' ∉ joinSep ',' headers := by
  intro hm
  rcases mem_joinSep ',' headers '\n' hm with he | ⟨xs, hxs, hc⟩
  · exact absurd he (by decide)
  · exact hh xs hxs hc

theorem parseCSV_of_filtered (content header l1 : Str) (ls : List Str)
    (h : (splitOnChar '\n' content).filter (fun l => !(trimChars l).isEmpty)
        = header :: l1 :: ls) :
    parseCSV content = Except.ok
      (parseRows
        ((splitOnChar ',' header).map (fun x => trimChars (x.filter (fun c => c != '"'))))
        (l1 :: ls)) := by
  unfold parseCSV
  rw [h]

theorem map_lookup_keys (row : Row) (hnd : (row.map Prod.fst).Nodup) :
    (row.map Prod.fst).map (lookupRow row) = row.map Prod.snd := by
  induction row with
  | nil => rfl
  | cons kv rest ih =>
    rcases kv with ⟨k, v⟩
    simp only [List.map_cons]
    have hk : lookupRow ((k, v) :: rest) k = v := by simp [lookupRow]
    have hnotin : k ∉ rest.map Prod.fst := (List.nodup_cons.mp hnd).1
    have hnd2 : (rest.map Prod.fst).Nodup := (List.nodup_cons.mp hnd).2
    rw [hk]
    have h1 : (rest.map Prod.fst).map (lookupRow ((k, v) :: rest))
        = (rest.map Prod.fst).map (lookupRow rest) :=
      List.map_eq_map_iff.mpr (fun h hm => by
        have hne : ¬(k = h) := fun he => hnotin (he ▸ hm)
        simp [lookupRow, hne])
    rw [h1, ih hnd2]

theorem zip_keys_values (row : Row) :
    (row.map Prod.fst).zip (row.map Prod.snd) = row := by
  induction row with
  | nil => rfl
  | cons kv rest ih => simp [ih]

theorem parseRows_encoded (headers : List Str) (hne : headers ≠ []) (hnd : headers.Nodup)
    (rows : List Row)
    (hkeys : ∀ row ∈ rows, row.map Prod.fst = headers)
    (htrim : ∀ row ∈ rows, ∀ kv ∈ row, trimChars kv.2 = kv.2) :
    parseRows headers
      (rows.map (fun row =>
        joinSep ',' (headers.map (fun h => escapeCSVField (lookupRow row h))))) = rows := by
  induction rows with
  | nil => rfl
  | cons row rows ih =>
    rw [List.map_cons, parseRows]
    have hline : parseCSVLine
        (joinSep ',' (headers.map (fun h => escapeCSVField (lookupRow row h))))
        = headers.map (lookupRow row) := by
      have hmm : headers.map (fun h => escapeCSVField (lookupRow row h))
          = (headers.map (lookupRow row)).map escapeCSVField := by
        rw [List.map_map]
        rfl
      rw [hmm]
      refine parse_line_of_fields (headers.map (lookupRow row)) (by simpa using hne) ?_
      intro v hv
      rcases List.mem_map.mp hv with ⟨h, _, rfl⟩
      exact row_value_trim row (htrim row (by simp)) h
    rw [hline]
    rw [if_pos (List.length_map headers (lookupRow row))]
    have hzip : headers.zip (headers.map (lookupRow row)) = row := by
      have hk := hkeys row (by simp)
      rw [← hk, map_lookup_keys row (hk ▸ hnd), zip_keys_values]
    rw [hzip, ih (fun r hr => hkeys r (List.mem_cons_of_mem row hr))
      (fun r hr => htrim r (List.mem_cons_of_mem row hr))]

/-! ## Claim C2 -/

/-- C2 (counterexample): the codec round trip is not stable as claimed.
First input: a value with a leading space and no comma, quote or newline
(`" x"`) comes back trimmed, so delimiter-free values are not byte-identical
after decode∘encode.  Second input: a newline-bearing value is quoted by
the encoder but the decoder splits the text on raw newlines before honoring
quotes, so the row is lost.  Third input: a lone empty-valued single-column
row encodes to a line that the decoder's blank-line filter drops, making the
parse fail outright. -/
theorem c2_counterexample :
    parseCSV (arrayToCSV [[("a".data, " x".data), ("b".data, "y".data)]])
        ≠ Except.ok [[("a".data, " x".data), ("b".data, "y".data)]]
    ∧ parseCSV (arrayToCSV [[("a".data, "x\ny".data), ("b".data, "z".data)]])
        ≠ Except.ok [[("a".data, "x\ny".data), ("b".data, "z".data)]]
    ∧ parseCSV (arrayToCSV [[("a".data, "".data)]])
        ≠ Except.ok [[("a".data, "".data)]] := by
  refine ⟨by decide, by decide, by decide⟩

/-- C2 (amended): encode-then-decode is the identity on any row set with at
least two columns whose column names are comma-, quote- and newline-free
and trim-invariant, and whose values are newline-free and trim-invariant
(no leading or trailing whitespace).  Values may freely contain commas and
double quotes: quote-escaping is inverted exactly by the reader, so such
values survive the round trip byte-identically. -/
theorem c2_roundtrip_amended (firstRow : Row) (rest : List Row)
    (hcols : 2 ≤ firstRow.length)
    (hnodup : (firstRow.map Prod.fst).Nodup)
    (hkeys : ∀ row ∈ firstRow :: rest, row.map Prod.fst = firstRow.map Prod.fst)
    (hhead : ∀ h ∈ firstRow.map Prod.fst,
      ',' ∉ h ∧ '"' ∉ h ∧ '\n' ∉ h ∧ trimChars h = h)
    (hvals : ∀ row ∈ firstRow :: rest, ∀ kv ∈ row,
      '\n' ∉ kv.2 ∧ trimChars kv.2 = kv.2) :
    parseCSV (arrayToCSV (firstRow :: rest)) = Except.ok (firstRow :: rest) := by
  have harr : arrayToCSV (firstRow :: rest)
      = joinSep '\n' (joinSep ',' (firstRow.map Prod.fst) ::
          (firstRow :: rest).map (fun row => joinSep ','
            ((firstRow.map Prod.fst).map (fun h => escapeCSVField (lookupRow row h))))) := rfl
  have hlenh : (firstRow.map Prod.fst).length = firstRow.length := List.length_map _ _
  have hsplit : splitOnChar '\n' (arrayToCSV (firstRow :: rest))
      = joinSep ',' (firstRow.map Prod.fst) ::
          (firstRow :: rest).map (fun row => joinSep ','
            ((firstRow.map Prod.fst).map (fun h => escapeCSVField (lookupRow row h)))) := by
    rw [harr]
    refine splitOnChar_joinSep '\n' _ (by simp) ?_
    intro xs hxs
    rcases List.mem_cons.mp hxs with rfl | hm
    · exact nl_not_mem_header_line _ (fun h hh => (hhead h hh).2.2.1)
    · rcases List.mem_map.mp hm with ⟨row, hrow, rfl⟩
      exact nl_not_mem_row_line _ row (fun kv hkv => (hvals row hrow kv hkv).1)
  have hfull : (splitOnChar '\n' (arrayToCSV (firstRow :: rest))).filter
        (fun l => !(trimChars l).isEmpty)
      = joinSep ',' (firstRow.map Prod.fst) ::
          joinSep ',' ((firstRow.map Prod.fst).map
            (fun h => escapeCSVField (lookupRow firstRow h))) ::
          rest.map (fun row => joinSep ','
            ((firstRow.map Prod.fst).map (fun h => escapeCSVField (lookupRow row h)))) := by
    rw [hsplit]
    rw [List.filter_eq_self.mpr]
    · simp
    · intro l hl
      have hcomma : ',' ∈ l := by
        rcases List.mem_cons.mp hl with rfl | hm
        · exact sep_mem_joinSep ',' _ (by rw [hlenh]; exact hcols)
        · rcases List.mem_map.mp hm with ⟨row, _, rfl⟩
          refine sep_mem_joinSep ',' _ ?_
          rw [List.length_map, hlenh]
          exact hcols
      have hne := trimChars_ne_nil_of_comma hcomma
      simp only [Bool.not_eq_true', List.isEmpty_iff]
      simpa using hne
  rw [parseCSV_of_filtered _ _ _ _ hfull]
  have hne : (firstRow.map Prod.fst) ≠ [] := by
    intro h0
    rw [h0] at hlenh
    simp at hlenh
    omega
  have hheads : (splitOnChar ',' (joinSep ',' (firstRow.map Prod.fst))).map
        (fun x => trimChars (x.filter (fun c => c != '"')))
      = firstRow.map Prod.fst := by
    rw [splitOnChar_joinSep ',' _ hne (fun xs hxs => (hhead xs hxs).1)]
    exact map_eq_self_of _ _ (fun x hx => by
      rw [filter_quotes_eq_self (hhead x hx).2.1, (hhead x hx).2.2.2])
  rw [hheads]
  have hrows : (joinSep ',' ((firstRow.map Prod.fst).map
          (fun h => escapeCSVField (lookupRow firstRow h))) ::
        rest.map (fun row => joinSep ','
          ((firstRow.map Prod.fst).map (fun h => escapeCSVField (lookupRow row h)))))
      = (firstRow :: rest).map (fun row => joinSep ','
          ((firstRow.map Prod.fst).map (fun h => escapeCSVField (lookupRow row h)))) := by
    simp
  rw [hrows, parseRows_encoded _ hne hnodup (firstRow :: rest) hkeys
    (fun row hr kv hkv => (hvals row hr kv hkv).2)]

/-- C2 (witness): a 2-by-2 row set whose values contain a comma and a
double quote survives the round trip: all hypotheses of the amended
round-trip theorem hold at this input. -/
theorem c2_roundtrip_amended_witness :
    parseCSV (arrayToCSV [[("a".data, "x,1".data), ("b".data, "y\"z".data)],
        [("a".data, "".data), ("b".data, "plain".data)]])
      = Except.ok [[("a".data, "x,1".data), ("b".data, "y\"z".data)],
        [("a".data, "".data), ("b".data, "plain".data)]] :=
  c2_roundtrip_amended [("a".data, "x,1".data), ("b".data, "y\"z".data)]
    [[("a".data, "".data), ("b".data, "plain".data)]]
    (by decide) (by decide) (by decide) (by decide) (by decide)

/-! ## Claim C4 -/

/-- C4: the write path of the codec agrees exactly with the spec's quoting
contract.  `arrayToCSV` on a non-empty row set equals the spec-transcribed
encoder applied to the first row's column list and each row's values read
off in column order: comma-joined header line first, one comma-joined line
per row, a value double-quote wrapped with internal quotes doubled if and
only if it contains a comma, a double quote, or a newline, no trailing
delimiter, lines joined by a single newline. -/
theorem c4_write_path_quoting (firstRow : Row) (rest : List Row) :
    arrayToCSV (firstRow :: rest) =
      csvEncodeSpec (firstRow.map Prod.fst)
        ((firstRow :: rest).map (fun row =>
          (firstRow.map Prod.fst).map (fun h => lookupRow row h))) := by
  unfold arrayToCSV csvEncodeSpec
  simp only [List.map_map]
  congr 1
  congr 1
  refine List.map_eq_map_iff.mpr ?_
  intro row _
  simp only [Function.comp_apply, List.map_map]
  rfl

/-! ## Claims C5 and C6: the column naming convention -/

theorem two_le_splitOnChar_length_iff (sep : Char) (l : Str) :
    2 ≤ (splitOnChar sep l).length ↔ sep ∈ l := by
  induction l with
  | nil => simp [splitOnChar]
  | cons c rest ih =>
    rw [splitOnChar]
    split
    · rename_i h
      subst h
      simp only [List.length_cons, List.mem_cons, true_or, iff_true]
      have := splitOnChar_ne_nil c rest
      have : 1 ≤ (splitOnChar c rest).length := by
        rcases hs : splitOnChar c rest with _ | ⟨s, ss⟩
        · exact absurd hs this
        · simp
      omega
    · rename_i hc
      rcases hs : splitOnChar sep rest with _ | ⟨s, ss⟩
      · exact absurd hs (splitOnChar_ne_nil sep rest)
      · rw [hs] at ih
        simp only [List.length_cons] at ih ⊢
        rw [List.mem_cons]
        constructor
        · intro h2
          exact Or.inr (ih.mp (by omega))
        · rintro (rfl | hm)
          · exact absurd rfl hc
          · have := ih.mpr hm
            omega

theorem extractMetafields_cons (kv : Str × Str) (rest : Row) :
    extractMetafields (kv :: rest) =
      (if hasPrefixL ("metafield_".data) kv.1 ∧ kv.2 ≠ [] then
        match splitOnChar '_' (replaceFirst ("metafield_".data) [] kv.1) with
        | p0 :: p1 :: ps =>
          [{ ns := p0, key := joinSep '_' (p1 :: ps), value := kv.2,
             type := "single_line_text_field".data }]
        | _ => []
      else []) ++ extractMetafields rest := by
  unfold extractMetafields
  rw [List.foldr_cons]
  split
  · split
    · rfl
    · rfl
  · rfl

/-- C5 (counterexample): the column the exporter emits for the metafield
pair (custom, popular) is `metafield_custom_popular`, not
`attribute_custom_popular`, and the importer extracts nothing from a
populated column named by the `attribute_` convention. -/
theorem c5_counterexample :
    flattenMetafields
        [{ ns := "custom".data, key := "popular".data, value := "true".data,
           type := "boolean".data }]
      = [("metafield_custom_popular".data, "true".data)]
    ∧ ("metafield_custom_popular".data : Str) ≠ "attribute_custom_popular".data
    ∧ extractMetafields [("attribute_custom_popular".data, "true".data)] = [] := by
  refine ⟨by decide, by decide, by decide⟩

/-- C5 (amended): the naming convention is `metafield_{namespace}_{key}`,
not `attribute_{namespace}_{key}`.  The exporter flattens the pair (ns, k)
to the column `metafield_` ++ ns ++ `_` ++ k, and the importer extracts an
entry from a populated column exactly when the column name is of that
form. -/
theorem c5_naming_convention (mf : Metafield) (c v : Str) (hv : v ≠ []) :
    flattenMetafields [mf]
        = [(("metafield_".data ++ mf.ns) ++ ('_' :: mf.key), mf.value)]
    ∧ (extractMetafields [(c, v)] ≠ [] ↔
        ∃ ns k, c = ("metafield_".data ++ ns) ++ ('_' :: k)) := by
  constructor
  · rfl
  · rw [extractMetafields_cons]
    constructor
    · intro hne
      by_cases hcond : hasPrefixL ("metafield_".data) c ∧ v ≠ []
      · rcases (hasPrefixL_iff _ _).mp hcond.1 with ⟨t, rfl⟩
        rw [if_pos hcond, replaceFirst_append, List.nil_append] at hne
        rcases hs : splitOnChar '_' t with _ | ⟨p0, _ | ⟨p1, ps2⟩⟩
        · exact absurd hs (splitOnChar_ne_nil _ _)
        · rw [hs] at hne
          simp [extractMetafields] at hne
        · have hmem : '_' ∈ t := by
            refine (two_le_splitOnChar_length_iff '_' t).mp ?_
            rw [hs]
            simp only [List.length_cons]
            omega
          rcases List.mem_iff_append.mp hmem with ⟨a, b, rfl⟩
          exact ⟨a, b, by simp⟩
      · rw [if_neg hcond] at hne
        simp [extractMetafields] at hne
    · rintro ⟨ns, k, rfl⟩
      have hpre : hasPrefixL ("metafield_".data) (("metafield_".data ++ ns) ++ ('_' :: k))
          = true := by
        rw [List.append_assoc]
        exact hasPrefixL_append _ _
      rw [if_pos ⟨hpre, hv⟩, List.append_assoc, replaceFirst_append, List.nil_append]
      have h2 : 2 ≤ (splitOnChar '_' (ns ++ '_' :: k)).length :=
        (two_le_splitOnChar_length_iff '_' (ns ++ '_' :: k)).mpr (by simp)
      rcases hs : splitOnChar '_' (ns ++ '_' :: k) with _ | ⟨p0, _ | ⟨p1, ps2⟩⟩
      · exact absurd hs (splitOnChar_ne_nil _ _)
      · rw [hs] at h2
        simp at h2
      · simp [extractMetafields]

/-- C5 (witness): the populated column `metafield_custom_popular` is
recognized by the importer, being named by the `metafield_` convention. -/
theorem c5_naming_convention_witness :
    extractMetafields [("metafield_custom_popular".data, "true".data)] ≠ [] :=
  ((c5_naming_convention
      { ns := "x".data, key := "y".data, value := "v".data, type := "t".data }
      ("metafield_custom_popular".data) ("true".data) (by decide)).2).mpr
    ⟨"custom".data, "popular".data, by decide⟩

/-- C6 (counterexample): decomposition is not the inverse of flattening for
a namespace containing an underscore: flattening (my_ns, x) and extracting
recovers (my, ns_x), not (my_ns, x). -/
theorem c6_counterexample :
    (extractMetafields (flattenMetafields
        [{ ns := "my_ns".data, key := "x".data, value := "v".data,
           type := "t".data }])).map (fun m => (m.ns, m.key))
      = [("my".data, "ns_x".data)]
    ∧ (("my".data : Str), ("ns_x".data : Str)) ≠ (("my_ns".data : Str), ("x".data : Str)) := by
  refine ⟨by decide, by decide⟩

/-- C6 (amended): for every namespace that contains no underscore (and any
key), extracting from the column produced by flattening recovers exactly
the namespace and the key; with an underscore in the namespace the split
puts the boundary at the first underscore instead. -/
theorem c6_decompose_inverse (ns k v t : Str) (hns : '_' ∉ ns) (hv : v ≠ []) :
    (extractMetafields (flattenMetafields [{ ns := ns, key := k, value := v, type := t }])).map
        (fun m => (m.ns, m.key))
      = [(ns, k)] := by
  have hflat : flattenMetafields [{ ns := ns, key := k, value := v, type := t }]
      = [(("metafield_".data ++ ns) ++ ('_' :: k), v)] := rfl
  rw [hflat, extractMetafields_cons]
  have hpre : hasPrefixL ("metafield_".data) (("metafield_".data ++ ns) ++ ('_' :: k))
      = true := by
    rw [List.append_assoc]
    exact hasPrefixL_append _ _
  rw [if_pos ⟨hpre, hv⟩, List.append_assoc, replaceFirst_append, List.nil_append,
    splitOnChar_append_sep '_' ns k hns]
  rcases hs : splitOnChar '_' k with _ | ⟨q0, qs⟩
  · exact absurd hs (splitOnChar_ne_nil _ _)
  · have hjoin : joinSep '_' (q0 :: qs) = k := by
      rw [← hs]
      exact joinSep_splitOnChar '_' k
    simp [hjoin, extractMetafields]

/-- C6 (witness): flattening then extracting the pair (custom, popular_new)
recovers it exactly; the namespace `custom` is underscore-free. -/
theorem c6_decompose_inverse_witness :
    (extractMetafields (flattenMetafields
        [{ ns := "custom".data, key := "popular_new".data, value := "true".data,
           type := "t".data }])).map (fun m => (m.ns, m.key))
      = [("custom".data, "popular_new".data)] :=
  c6_decompose_inverse ("custom".data) ("popular_new".data) ("true".data) ("t".data)
    (by decide) (by decide)

/-! ## Claim C8 -/

/-- C8 (counterexample): the drop criterion is not the raw comma-split
count.  The data line `"x,y",z` raw-splits into 3 fields against a 2-column
header, yet it is not dropped: its quote-aware field count is 2, so it
parses into a row. -/
theorem c8_counterexample :
    (splitOnChar ',' ("\"x,y\",z".data)).length ≠ 2
    ∧ parseCSV ("a,b\n\"x,y\",z".data)
        = Except.ok [[("a".data, "x,y".data), ("b".data, "z".data)]] := by
  refine ⟨by decide, by decide⟩

/-- C8 (amended): a data line whose quote-aware parsed field count differs
from the header count is dropped (with a console warning) rather than
failing the parse: the remaining lines parse exactly as if the bad line
were absent, and the dropped line contributes no row. -/
theorem c8_malformed_line_dropped (headers : List Str) (pre post : List Str) (bad : Str)
    (h : (parseCSVLine bad).length ≠ headers.length) :
    parseRows headers (pre ++ bad :: post) = parseRows headers (pre ++ post) := by
  induction pre with
  | nil =>
    rw [List.nil_append, List.nil_append, parseRows, if_neg h]
  | cons line pre ih =>
    rw [List.cons_append, List.cons_append, parseRows, parseRows, ih]

/-- C8 (witness): against the 2-column header list [a, b], a 1-field data
line between two good lines is dropped and the good lines still parse. -/
theorem c8_malformed_line_dropped_witness :
    parseRows ["a".data, "b".data] (["1,2".data] ++ "oops".data :: ["3,4".data])
      = parseRows ["a".data, "b".data] (["1,2".data] ++ ["3,4".data]) :=
  c8_malformed_line_dropped ["a".data, "b".data] ["1,2".data] ["3,4".data]
    ("oops".data) (by decide)

/-! ## Batch-writer decomposition lemmas -/

theorem resultsExt {a b : Results} (h1 : a.success = b.success) (h2 : a.failed = b.failed)
    (h3 : a.skipped = b.skipped) (h4 : a.details = b.details) : a = b := by
  cases a
  cases b
  simp_all

theorem rcExt {a b : Results × List Call} (h1 : a.1 = b.1) (h2 : a.2 = b.2) : a = b := by
  cases a
  cases b
  simp_all

theorem mergeRC_assoc (a b c : Results × List Call) :
    mergeRC (mergeRC a b) c = mergeRC a (mergeRC b c) := by
  refine rcExt (resultsExt ?_ ?_ ?_ ?_) ?_ <;> simp [mergeRC] <;> omega

theorem processBatch_cons (env : Env) (d : Bool) (v : Row) (rest : List Row) :
    processBatch env d (v :: rest) =
      mergeRC (processBatch env d [v]) (processBatch env d rest) := by
  simp only [processBatch]
  by_cases h0 : (extractMetafields v).length = 0
  · simp only [if_pos h0]
    refine rcExt (resultsExt ?_ ?_ ?_ ?_) ?_ <;> simp [mergeRC] <;> omega
  · simp only [if_neg h0]
    by_cases hfc : ((updateVariantMetafields env d (lookupRow v ("variant_id".data))
        (extractMetafields v)).1.filter (fun r => !r.success)).length = 0
    · simp only [if_pos hfc]
      refine rcExt (resultsExt ?_ ?_ ?_ ?_) ?_ <;> simp [mergeRC] <;> omega
    · simp only [if_neg hfc]
      refine rcExt (resultsExt ?_ ?_ ?_ ?_) ?_ <;> simp [mergeRC] <;> omega

theorem processBatch_append (env : Env) (d : Bool) (xs ys : List Row) :
    processBatch env d (xs ++ ys) =
      mergeRC (processBatch env d xs) (processBatch env d ys) := by
  induction xs with
  | nil =>
    refine rcExt (resultsExt ?_ ?_ ?_ ?_) ?_ <;> simp [processBatch, mergeRC]
  | cons v xs ih =>
    rw [List.cons_append, processBatch_cons env d v (xs ++ ys), ih,
      processBatch_cons env d v xs]
    exact (mergeRC_assoc _ _ _).symm

theorem importLoop_eq_processBatch (env : Env) (d : Bool) (b : Nat) (hb : 0 < b)
    (rows : List Row) : importLoop env d b rows = processBatch env d rows := by
  have hgen : ∀ (n : Nat) (rs : List Row), rs.length ≤ n →
      importLoop env d b rs = processBatch env d rs := by
    intro n
    induction n with
    | zero =>
      intro rs hr
      have he : rs = [] := List.eq_nil_of_length_eq_zero (Nat.le_zero.mp hr)
      subst he
      rw [importLoop]
      simp [processBatch]
    | succ n ih =>
      intro rs hr
      rw [importLoop]
      by_cases he : rs.isEmpty
      · rw [dif_pos he]
        have he2 : rs = [] := List.isEmpty_iff.mp he
        subst he2
        simp [processBatch]
      · rw [dif_neg he, dif_neg (Nat.pos_iff_ne_zero.mp hb)]
        have hlen : (rs.drop b).length ≤ n := by
          rw [List.length_drop]
          have h1 : rs.length ≤ n + 1 := hr
          have h2 : rs ≠ [] := fun h3 => he (by simp [h3])
          have h3 : 1 ≤ rs.length := List.length_pos.mpr h2
          omega
        rw [ih (rs.drop b) hlen, ← processBatch_append, List.take_append_drop]
  exact hgen rows.length rows le_rfl

theorem processBatch_single_skip (env : Env) (d : Bool) (v : Row)
    (h : extractMetafields v = []) :
    processBatch env d [v] =
      ({ success := 0, failed := 0, skipped := 1, details := [] }, []) := by
  simp [processBatch, h]

/-! ## Behavior of a single live failing update -/

theorem updateVariantMetafields_live_fail (env : Env) (vid : Str) (mfs : List Metafield)
    (hne : mfs ≠ [])
    (hfail : env.productIdOf vid = none
      ∨ env.mutate vid (sentMetafields mfs) ≠ MutationOutcome.ok) :
    (updateVariantMetafields env false vid mfs).1 =
      mfs.map (fun m =>
        { success := false, metafield := m
          error := some (capturedError env vid (sentMetafields mfs)) }) := by
  have h0 : ¬(mfs.length = 0) := by simpa [List.length_eq_zero] using hne
  unfold updateVariantMetafields capturedError
  rw [if_neg h0]
  simp only [Bool.false_eq_true, if_false]
  rcases hp : env.productIdOf vid with _ | pid
  · simp [hp]
  · rcases hm : env.mutate vid (sentMetafields mfs) with _ | errs | msg
    · rcases hfail with h1 | h2
      · rw [hp] at h1
        exact absurd h1 (by simp)
      · exact absurd hm h2
    · simp [hp, hm]
    · simp [hp, hm]

theorem processBatch_single_fail (env : Env) (v : Row)
    (hmf : extractMetafields v ≠ [])
    (hfail : env.productIdOf (lookupRow v ("variant_id".data)) = none
      ∨ env.mutate (lookupRow v ("variant_id".data))
          (sentMetafields (extractMetafields v)) ≠ MutationOutcome.ok) :
    processBatch env false [v] =
      ({ success := 0, failed := 1, skipped := 0
         details := [{ variantId := lookupRow v ("variant_id".data)
                       variantTitle := lookupRow v ("variant_title".data)
                       metafieldResults := (extractMetafields v).map (fun m =>
                         { success := false, metafield := m
                           error := some (capturedError env
                             (lookupRow v ("variant_id".data))
                             (sentMetafields (extractMetafields v))) }) }] },
       (updateVariantMetafields env false (lookupRow v ("variant_id".data))
         (extractMetafields v)).2) := by
  have hres := updateVariantMetafields_live_fail env (lookupRow v ("variant_id".data))
    (extractMetafields v) hmf hfail
  have h0 : ¬((extractMetafields v).length = 0) := by
    simpa [List.length_eq_zero] using hmf
  have hfc : (((updateVariantMetafields env false (lookupRow v ("variant_id".data))
      (extractMetafields v)).1).filter (fun r => !r.success)).length
      = (extractMetafields v).length := by
    rw [hres, List.filter_eq_self.mpr, List.length_map]
    intro r hr
    rcases List.mem_map.mp hr with ⟨m, _, rfl⟩
    rfl
  simp only [processBatch]
  rw [if_neg h0, if_neg (show ¬(((updateVariantMetafields env false
      (lookupRow v ("variant_id".data)) (extractMetafields v)).1).filter
      (fun r => !r.success)).length = 0 by rw [hfc]; exact h0)]
  refine rcExt (resultsExt ?_ ?_ ?_ ?_) ?_
  · rfl
  · rfl
  · rfl
  · rw [hres]
  · simp

/-! ## Mode-independence and call-shape lemmas -/

theorem updateVariantMetafields_dry_calls (env : Env) (vid : Str)
    (mfs : List Metafield) : (updateVariantMetafields env true vid mfs).2 = [] := by
  unfold updateVariantMetafields
  split
  · rfl
  · rfl

theorem processBatch_dry_calls (env : Env) (rows : List Row) :
    (processBatch env true rows).2 = [] := by
  induction rows with
  | nil => rfl
  | cons v rest ih =>
    rw [processBatch_cons env true v rest]
    simp only [mergeRC]
    rw [ih, List.append_nil]
    simp only [processBatch]
    by_cases h0 : (extractMetafields v).length = 0
    · simp [h0]
    · rw [if_neg h0, updateVariantMetafields_dry_calls]
      split <;> rfl

theorem processBatch_single_mode_skipped (env1 env2 : Env) (d1 d2 : Bool) (v : Row) :
    (processBatch env1 d1 [v]).1.skipped = (processBatch env2 d2 [v]).1.skipped := by
  simp only [processBatch]
  by_cases h0 : (extractMetafields v).length = 0
  · rw [if_pos h0, if_pos h0]
  · rw [if_neg h0, if_neg h0]
    split <;> split <;> rfl

theorem processBatch_mode_skipped (env1 env2 : Env) (d1 d2 : Bool) (rows : List Row) :
    (processBatch env1 d1 rows).1.skipped = (processBatch env2 d2 rows).1.skipped := by
  induction rows with
  | nil => rfl
  | cons v rest ih =>
    rw [processBatch_cons env1 d1 v rest, processBatch_cons env2 d2 v rest]
    simp only [mergeRC]
    rw [ih, processBatch_single_mode_skipped env1 env2 d1 d2 v]

theorem processBatch_single_mode_ids (env1 env2 : Env) (d1 d2 : Bool) (v : Row) :
    (processBatch env1 d1 [v]).1.details.map Detail.variantId
      = (processBatch env2 d2 [v]).1.details.map Detail.variantId := by
  simp only [processBatch]
  by_cases h0 : (extractMetafields v).length = 0
  · rw [if_pos h0, if_pos h0]
  · rw [if_neg h0, if_neg h0]
    split <;> split <;> rfl

theorem processBatch_mode_ids (env1 env2 : Env) (d1 d2 : Bool) (rows : List Row) :
    (processBatch env1 d1 rows).1.details.map Detail.variantId
      = (processBatch env2 d2 rows).1.details.map Detail.variantId := by
  induction rows with
  | nil => rfl
  | cons v rest ih =>
    rw [processBatch_cons env1 d1 v rest, processBatch_cons env2 d2 v rest]
    simp only [mergeRC, List.map_append]
    rw [ih, processBatch_single_mode_ids env1 env2 d1 d2 v]

/-! ## Aggregate counting lemmas -/

theorem processBatch_single_counts (env : Env) (d : Bool) (v : Row) :
    (processBatch env d [v]).1.success + (processBatch env d [v]).1.failed
        + (processBatch env d [v]).1.skipped = 1
    ∧ (processBatch env d [v]).1.details.length
        = (processBatch env d [v]).1.success + (processBatch env d [v]).1.failed := by
  simp only [processBatch]
  by_cases h0 : (extractMetafields v).length = 0
  · simp [h0]
  · simp only [if_neg h0]
    split <;> simp

theorem processBatch_counts (env : Env) (d : Bool) (rows : List Row) :
    (processBatch env d rows).1.success + (processBatch env d rows).1.failed
        + (processBatch env d rows).1.skipped = rows.length
    ∧ (processBatch env d rows).1.details.length
        = (processBatch env d rows).1.success + (processBatch env d rows).1.failed := by
  induction rows with
  | nil => exact ⟨rfl, rfl⟩
  | cons v rest ih =>
    rw [processBatch_cons]
    rcases ih with ⟨ih1, ih2⟩
    rcases processBatch_single_counts env d v with ⟨hs1, hs2⟩
    simp only [mergeRC, List.length_append, List.length_cons]
    constructor <;> omega

/-! ## Payload lemmas: no empty values ever reach a mutation -/

theorem extractMetafields_values (row : Row) :
    ∀ m ∈ extractMetafields row, m.value ≠ [] := by
  induction row with
  | nil => simp [extractMetafields]
  | cons kv rest ih =>
    rw [extractMetafields_cons]
    intro m hm
    rcases List.mem_append.mp hm with h1 | h2
    · by_cases hc : hasPrefixL ("metafield_".data) kv.1 ∧ kv.2 ≠ []
      · rw [if_pos hc] at h1
        split at h1
        · rw [List.mem_singleton] at h1
          subst h1
          exact hc.2
        · simp at h1
      · rw [if_neg hc] at h1
        simp at h1
    · exact ih m h2

theorem updateVariantMetafields_payload (env : Env) (d : Bool) (vid : Str)
    (mfs : List Metafield) (hval : ∀ m ∈ mfs, m.value ≠ []) :
    ∀ c ∈ (updateVariantMetafields env d vid mfs).2, ∀ m ∈ c.payload, m.value ≠ [] := by
  unfold updateVariantMetafields
  split
  · simp
  · split
    · simp
    · rcases hp : env.productIdOf vid with _ | pid
      · simp [hp]
      · rcases hm : env.mutate vid (sentMetafields mfs) with _ | errs | msg <;>
        · simp only [hp, hm]
          intro c hc m hmm2
          rcases List.mem_cons.mp hc with rfl | hc2
          · simp at hmm2
          · rcases List.mem_cons.mp hc2 with rfl | hc3
            · rcases List.mem_map.mp (by simpa [sentMetafields] using hmm2)
                with ⟨m0, hm0, hm0eq⟩
              rw [← hm0eq]
              exact hval m0 hm0
            · simp at hc3

theorem processBatch_payload (env : Env) (d : Bool) (rows : List Row) :
    ∀ c ∈ (processBatch env d rows).2, ∀ m ∈ c.payload, m.value ≠ [] := by
  induction rows with
  | nil => simp [processBatch]
  | cons v rest ih =>
    rw [processBatch_cons]
    simp only [mergeRC, List.mem_append]
    intro c hc
    rcases hc with h1 | h2
    · revert h1
      simp only [processBatch]
      by_cases h0 : (extractMetafields v).length = 0
      · simp [h0]
      · simp only [if_neg h0]
        have hpay := updateVariantMetafields_payload env d
          (lookupRow v ("variant_id".data)) (extractMetafields v)
          (extractMetafields_values v)
        split <;>
        · intro h1
          simp only [List.append_nil] at h1
          exact hpay c h1
    · exact ih c h2

theorem importLoop_payload (env : Env) (d : Bool) (b : Nat) (rows : List Row) :
    ∀ c ∈ (importLoop env d b rows).2, ∀ m ∈ c.payload, m.value ≠ [] := by
  by_cases hb : b = 0
  · subst hb
    intro c hc
    rw [importLoop] at hc
    by_cases he : rows.isEmpty
    · rw [dif_pos he] at hc
      simp at hc
    · rw [dif_neg he, dif_pos rfl] at hc
      simp at hc
  · intro c hc
    rw [importLoop_eq_processBatch env d b (Nat.pos_of_ne_zero hb) rows] at hc
    exact processBatch_payload env d rows c hc

/-! ## Claim C1 -/

/-- C1: partial failure isolation.  For any row whose extracted metafield
list is non-empty and whose live mutation fails — the product lookup comes
back empty (a failed or empty lookup), the mutation resolves with
`userErrors`, or the request rejects at the transport layer — the batch
writer records that row as one failure whose detail entry carries the
captured error text for every metafield, leaves the success count of the
surrounding rows untouched, and still processes every preceding and
following row: the counts, detail list and issued network calls of the
whole batch decompose into the contributions of the prefix, the failing
row, and the suffix. -/
theorem c1_partial_failure_isolation (env : Env) (pre : List Row) (v : Row)
    (post : List Row) (hmf : extractMetafields v ≠ [])
    (hfail : env.productIdOf (lookupRow v ("variant_id".data)) = none
      ∨ env.mutate (lookupRow v ("variant_id".data))
          (sentMetafields (extractMetafields v)) ≠ MutationOutcome.ok) :
    (processBatch env false (pre ++ v :: post)).1.success
        = (processBatch env false pre).1.success + (processBatch env false post).1.success
    ∧ (processBatch env false (pre ++ v :: post)).1.failed
        = (processBatch env false pre).1.failed + 1 + (processBatch env false post).1.failed
    ∧ (processBatch env false (pre ++ v :: post)).1.details
        = (processBatch env false pre).1.details
          ++ ({ variantId := lookupRow v ("variant_id".data)
                variantTitle := lookupRow v ("variant_title".data)
                metafieldResults := (extractMetafields v).map (fun m =>
                  { success := false, metafield := m
                    error := some (capturedError env (lookupRow v ("variant_id".data))
                      (sentMetafields (extractMetafields v))) }) } : Detail)
            :: (processBatch env false post).1.details
    ∧ (processBatch env false (pre ++ v :: post)).2
        = (processBatch env false pre).2
          ++ (updateVariantMetafields env false (lookupRow v ("variant_id".data))
              (extractMetafields v)).2
          ++ (processBatch env false post).2 := by
  have hsplit : processBatch env false (pre ++ v :: post)
      = mergeRC (processBatch env false pre)
          (mergeRC (processBatch env false [v]) (processBatch env false post)) := by
    rw [processBatch_append env false pre (v :: post), processBatch_cons env false v post]
  rw [processBatch_single_fail env v hmf hfail] at hsplit
  rw [hsplit]
  refine ⟨?_, ?_, ?_, ?_⟩
  · simp [mergeRC]
  · simp only [mergeRC]
    omega
  · simp [mergeRC]
  · simp [mergeRC, List.append_assoc]

/-- C1 (witness): a batch of 5 one-metafield records in the environment
that rejects record 3's mutation: the theorem's hypotheses hold at record
3, the run reports success=4 and failed=1, and the call log still contains
the mutations for records 4 and 5. -/
theorem c1_partial_failure_isolation_witness :
    (extractMetafields (testRow "v3") ≠ []
      ∧ (envRejectV3.productIdOf (lookupRow (testRow "v3") ("variant_id".data)) = none
        ∨ envRejectV3.mutate (lookupRow (testRow "v3") ("variant_id".data))
            (sentMetafields (extractMetafields (testRow "v3"))) ≠ MutationOutcome.ok))
    ∧ (processBatch envRejectV3 false
        ([testRow "v1", testRow "v2"] ++ testRow "v3" :: [testRow "v4", testRow "v5"])).1.failed
        = (processBatch envRejectV3 false [testRow "v1", testRow "v2"]).1.failed + 1
          + (processBatch envRejectV3 false [testRow "v4", testRow "v5"]).1.failed
    ∧ (processBatch envRejectV3 false
        [testRow "v1", testRow "v2", testRow "v3", testRow "v4", testRow "v5"]).1.success = 4
    ∧ (processBatch envRejectV3 false
        [testRow "v1", testRow "v2", testRow "v3", testRow "v4", testRow "v5"]).1.failed = 1
    ∧ (∃ c ∈ (processBatch envRejectV3 false
        [testRow "v1", testRow "v2", testRow "v3", testRow "v4", testRow "v5"]).2,
        c.kind = CallKind.mutation ∧ c.variantId = "v4".data)
    ∧ (∃ c ∈ (processBatch envRejectV3 false
        [testRow "v1", testRow "v2", testRow "v3", testRow "v4", testRow "v5"]).2,
        c.kind = CallKind.mutation ∧ c.variantId = "v5".data) :=
  ⟨⟨by decide, by decide⟩,
   (c1_partial_failure_isolation envRejectV3 [testRow "v1", testRow "v2"] (testRow "v3")
      [testRow "v4", testRow "v5"] (by decide) (by decide)).2.1,
   by decide, by decide, by decide, by decide⟩

/-! ## Claim C3 -/

/-- C3: dry-run equivalence.  For every parsed row set and any environment,
a dry run and a live run classify exactly the same rows as skipped (equal
skipped counts) and process exactly the same rows in the same order (the
detail lists carry the same variant ids), and the dry run issues no network
request at all. -/
theorem c3_dry_run_equivalence (env : Env) (rows : List Row) (batchSize : Nat)
    (hb : 0 < batchSize) :
    (importLoop env true batchSize rows).1.skipped
        = (importLoop env false batchSize rows).1.skipped
    ∧ (importLoop env true batchSize rows).1.details.map Detail.variantId
        = (importLoop env false batchSize rows).1.details.map Detail.variantId
    ∧ (importLoop env true batchSize rows).2 = [] := by
  rw [importLoop_eq_processBatch env true batchSize hb rows,
    importLoop_eq_processBatch env false batchSize hb rows]
  exact ⟨processBatch_mode_skipped env env true false rows,
    processBatch_mode_ids env env true false rows,
    processBatch_dry_calls env rows⟩

/-- C3 (witness): the dry-run equivalence instantiated at a concrete
three-row input (one row with no metafield columns) with batch size 2. -/
theorem c3_dry_run_equivalence_witness :
    (importLoop envRejectV3 true 2
        [testRow "v1", [("variant_id".data, "v9".data)], testRow "v3"]).1.skipped
      = (importLoop envRejectV3 false 2
        [testRow "v1", [("variant_id".data, "v9".data)], testRow "v3"]).1.skipped
    ∧ (importLoop envRejectV3 true 2
        [testRow "v1", [("variant_id".data, "v9".data)], testRow "v3"]).1.details.map
          Detail.variantId
      = (importLoop envRejectV3 false 2
        [testRow "v1", [("variant_id".data, "v9".data)], testRow "v3"]).1.details.map
          Detail.variantId
    ∧ (importLoop envRejectV3 true 2
        [testRow "v1", [("variant_id".data, "v9".data)], testRow "v3"]).2 = [] :=
  c3_dry_run_equivalence envRejectV3
    [testRow "v1", [("variant_id".data, "v9".data)], testRow "v3"] 2 (by decide)

/-! ## Claim C7 -/

/-- C7: skip rule.  A row from which zero metafield entries are extracted
is counted skipped wherever it sits in the batch: the skipped count rises
by exactly one, the success and failed counts and the detail list are those
of the other rows alone, and no network call is issued for the row (the
call log equals that of the other rows alone), in both dry and live
mode. -/
theorem c7_skip_rule (env : Env) (dryRun : Bool) (pre post : List Row) (v : Row)
    (h : extractMetafields v = []) :
    (processBatch env dryRun (pre ++ v :: post)).1.skipped
        = (processBatch env dryRun pre).1.skipped
          + (processBatch env dryRun post).1.skipped + 1
    ∧ (processBatch env dryRun (pre ++ v :: post)).1.success
        = (processBatch env dryRun pre).1.success + (processBatch env dryRun post).1.success
    ∧ (processBatch env dryRun (pre ++ v :: post)).1.failed
        = (processBatch env dryRun pre).1.failed + (processBatch env dryRun post).1.failed
    ∧ (processBatch env dryRun (pre ++ v :: post)).1.details
        = (processBatch env dryRun pre).1.details ++ (processBatch env dryRun post).1.details
    ∧ (processBatch env dryRun (pre ++ v :: post)).2
        = (processBatch env dryRun pre).2 ++ (processBatch env dryRun post).2 := by
  have hsplit : processBatch env dryRun (pre ++ v :: post)
      = mergeRC (processBatch env dryRun pre)
          (mergeRC (processBatch env dryRun [v]) (processBatch env dryRun post)) := by
    rw [processBatch_append env dryRun pre (v :: post), processBatch_cons env dryRun v post]
  rw [processBatch_single_skip env dryRun v h] at hsplit
  rw [hsplit]
  refine ⟨?_, ?_, ?_, ?_, ?_⟩
  · simp only [mergeRC]
    omega
  · simp [mergeRC]
  · simp [mergeRC]
  · simp [mergeRC]
  · simp [mergeRC]

/-- C7 (witness): a lone row with no populated metafield column is skipped:
the skip-rule theorem instantiated with empty prefix and suffix, plus the
concrete evaluation skipped=1, success=0, failed=0, no calls. -/
theorem c7_skip_rule_witness :
    extractMetafields [("variant_id".data, "v9".data)] = []
    ∧ (processBatch envAllOk false ([] ++ [("variant_id".data, "v9".data)] :: [])).1.skipped
        = (processBatch envAllOk false []).1.skipped
          + (processBatch envAllOk false []).1.skipped + 1
    ∧ (processBatch envAllOk false [[("variant_id".data, "v9".data)]]).1.skipped = 1
    ∧ (processBatch envAllOk false [[("variant_id".data, "v9".data)]]).1.success = 0
    ∧ (processBatch envAllOk false [[("variant_id".data, "v9".data)]]).1.failed = 0
    ∧ (processBatch envAllOk false [[("variant_id".data, "v9".data)]]).2 = [] :=
  ⟨by decide,
   (c7_skip_rule envAllOk false [] [] [("variant_id".data, "v9".data)] (by decide)).1,
   by decide, by decide, by decide, by decide⟩

/-! ## Claim C9 -/

/-- C9 (counterexample): the detail list is not complete over all processed
rows.  A one-row import whose row has no populated metafield column reports
skipped=1 but an empty detail list: the skipped row has no corresponding
entry. -/
theorem c9_counterexample :
    (importLoop envAllOk false 10 [[("variant_id".data, "v1".data)]]).1.skipped = 1
    ∧ (importLoop envAllOk false 10 [[("variant_id".data, "v1".data)]]).1.details = [] := by
  rw [importLoop_eq_processBatch envAllOk false 10 (by decide)]
  exact ⟨by decide, by decide⟩

/-- C9 (amended): the aggregate's counts are complete — success + failed +
skipped equals the number of processed rows — and the detail list is
complete over the non-skipped rows: its length equals success + failed.
Skipped rows are counted but contribute no detail entry. -/
theorem c9_aggregate_counts (env : Env) (dryRun : Bool) (batchSize : Nat)
    (rows : List Row) (hb : 0 < batchSize) :
    (importLoop env dryRun batchSize rows).1.success
        + (importLoop env dryRun batchSize rows).1.failed
        + (importLoop env dryRun batchSize rows).1.skipped = rows.length
    ∧ (importLoop env dryRun batchSize rows).1.details.length
        = (importLoop env dryRun batchSize rows).1.success
          + (importLoop env dryRun batchSize rows).1.failed := by
  rw [importLoop_eq_processBatch env dryRun batchSize hb rows]
  exact processBatch_counts env dryRun rows

/-- C9 (witness): the amended count completeness at a concrete
three-row run (two updated rows, one skipped row) with batch size 2. -/
theorem c9_aggregate_counts_witness :
    (importLoop envAllOk false 2
        [testRow "v1", [("variant_id".data, "v9".data)], testRow "v3"]).1.success
      + (importLoop envAllOk false 2
        [testRow "v1", [("variant_id".data, "v9".data)], testRow "v3"]).1.failed
      + (importLoop envAllOk false 2
        [testRow "v1", [("variant_id".data, "v9".data)], testRow "v3"]).1.skipped
      = ([testRow "v1", [("variant_id".data, "v9".data)], testRow "v3"] : List Row).length
    ∧ (importLoop envAllOk false 2
        [testRow "v1", [("variant_id".data, "v9".data)], testRow "v3"]).1.details.length
      = (importLoop envAllOk false 2
        [testRow "v1", [("variant_id".data, "v9".data)], testRow "v3"]).1.success
        + (importLoop envAllOk false 2
          [testRow "v1", [("variant_id".data, "v9".data)], testRow "v3"]).1.failed :=
  c9_aggregate_counts envAllOk false 2
    [testRow "v1", [("variant_id".data, "v9".data)], testRow "v3"] (by decide)

/-! ## Claim C10 -/

/-- C10: empty cells never produce writes.  Every metafield the extraction
yields has a non-empty value (an empty cell is omitted from the payload),
and consequently every network call any import run issues — for any
environment, mode, batch size and row set — carries only non-empty
metafield values: no run can set a remote metafield to the empty string. -/
theorem c10_no_empty_writes :
    (∀ (row : Row), ∀ m ∈ extractMetafields row, m.value ≠ [])
    ∧ (∀ (env : Env) (dryRun : Bool) (batchSize : Nat) (rows : List Row),
        ∀ c ∈ (importLoop env dryRun batchSize rows).2,
          ∀ m ∈ c.payload, m.value ≠ []) :=
  ⟨extractMetafields_values,
   fun env dryRun batchSize rows => importLoop_payload env dryRun batchSize rows⟩

/-- C10 (witness): the populated column `metafield_custom_popular = true`
extracts a metafield whose value `true` is non-empty. -/
theorem c10_no_empty_writes_witness :
    ({ ns := "custom".data, key := "popular".data, value := "true".data
       type := "single_line_text_field".data } : Metafield)
      ∈ extractMetafields [("metafield_custom_popular".data, "true".data)]
    ∧ ({ ns := "custom".data, key := "popular".data, value := "true".data
         type := "single_line_text_field".data } : Metafield).value ≠ [] :=
  ⟨by decide,
   c10_no_empty_writes.1 [("metafield_custom_popular".data, "true".data)]
     { ns := "custom".data, key := "popular".data, value := "true".data
       type := "single_line_text_field".data } (by decide)⟩

end Reconcile
